/-
Verification of the parameterised PID stage (`pisa/stages/pid/param.py`).

The Python stage is shallowly embedded below.  Conventions:

* Probability-function expression strings are represented by their evaluated
  meaning, a function `ℚ → ℚ` (the stage `eval`s the string once and then only
  applies the resulting function to bin-center arrays).
* Python dictionaries are represented by association lists, which preserve a
  key-enumeration order; `keys()` is the list of first components.
* numpy float arrays are represented by lists of `ℚ`; general N-dimensional
  arrays (needed by `get_outputs`) by a flat row-major data list plus a shape.
* Exceptions become `Except PIDError`; each `PIDError` constructor corresponds
  to one `raise` site and carries the data interpolated into its message.
-/
import Mathlib

/-- The evaluated meaning of one PID probability-function expression string
(the stage `eval`s the string to a function of energy). -/
abbrev PidExpr : Type := ℚ → ℚ

/-- One group's parameterisation: a Python dict from output-channel name
(`"trck"` / `"cscd"`) to an expression, kept as an association list so the
dict's key enumeration order is part of the model. -/
abbrev EnergyParamEntry : Type := List (String × PidExpr)

/-- The loaded parameterisation dict: flavour-group name ↦ entry. -/
abbrev EnergyParamDict : Type := List (String × EnergyParamEntry)

/-- Python `d[k]` / `k in d.keys()` on an association list (first match). -/
def lookupKey {α : Type} (d : List (String × α)) (k : String) : Option α :=
  match d with
  | [] => none
  | (k', v) :: rest => if k = k' then some v else lookupKey rest k

/-- Python `d.keys()`. -/
def dictKeys {α : Type} (d : List (String × α)) : List String :=
  d.map Prod.fst

/-- The errors raised by the stage.  Each constructor is one `raise` site of
`param.py`; the arguments are the data interpolated into the message. -/
inductive PIDError : Type
  /-- `'Input binning must contain "reco_energy".'` -/
  | missingEnergy
  /-- `"Input binning cannot have azimuth present ..."` -/
  | hasAzimuth
  /-- `"Got a name for the first binning dimension that was unexpected - '%s'."` -/
  | badFirstDim (name : String)
  /-- `"Got flavour '%s' which is not in the parameterisation dictionary keys
  - %s ..."` (raised both for a plain name and for the bare flavour of a
  joined name; the message names the offending key and the available keys). -/
  | lookupFailure (key : String) (availableKeys : List String)
  /-- `"Expected to get joined flav of nu+nubar but instead got '%s'."`
  (names only the offending string; the available keys are not included). -/
  | notJoinedFlav (flavstr : String)
  /-- `"Expected output channels, %s, does not match the list of PID
  classifications in the energy PID parameterisation - %s."` -/
  | badChannels (expected actual : List String)
  /-- Python `KeyError` on `energy_param[sig]` (unreachable after the channel
  check passes). -/
  | keyError (key : String)
  /-- numpy `AxisError` from `np.rollaxis(hist, 0, 3)` when the array has
  fewer than 3 dimensions (`start=3` fails the `0 <= start < ndim + 1` check). -/
  | axisError
  deriving DecidableEq, Repr

/-- One binning dimension (`pisa.core.binning.OneDimBinning`), reduced to the
fields the stage touches: its name, its bin edges and its weighted bin
centers.  A well-formed dimension has one weighted center per bin, i.e.
`weighted_centers.length = bin_edges.length - 1`. -/
structure OneDimBinning where
  name : String
  bin_edges : List ℚ
  weighted_centers : List ℚ
  deriving DecidableEq, Repr

/-- A multi-dimensional binning: the ordered list of its dimensions. -/
abbrev MultiDimBinning : Type := List OneDimBinning

/-- `binning.names`. -/
def binningNames (b : MultiDimBinning) : List String :=
  b.map OneDimBinning.name

/-- Attribute access `binning.<name>` / `binning['<name>']` (first dimension
with the given name, if any). -/
def lookupDim (b : MultiDimBinning) (n : String) : Option OneDimBinning :=
  match b with
  | [] => none
  | d :: rest => if d.name = n then some d else lookupDim rest n

/-- `param.validate_binning`: requires a `reco_energy` axis, forbids a
`reco_azimuth` axis, and requires the first axis to be `reco_energy` or
`reco_coszen`, in that order of checks. -/
def validate_binning (b : MultiDimBinning) : Except PIDError Unit :=
  if "reco_energy" ∉ binningNames b then
    .error .missingEnergy
  else if "reco_azimuth" ∈ binningNames b then
    .error .hasAzimuth
  else if (binningNames b).headD "" ≠ "reco_energy" ∧
      (binningNames b).headD "" ≠ "reco_coszen" then
    .error (.badFirstDim ((binningNames b).headD ""))
  else
    .ok ()

/-- The `pid_energy_paramfile` parameter value: either a resource path
(`basestring`) or an inline dict. -/
inductive PidSource : Type
  | str (path : String)
  | dict (d : EnergyParamDict)

/-- `param.load_pid_energy_param`, as a state-passing function.  The state is
the pair of cached fingerprint and decoded mapping (`_energy_param_hash`,
`energy_param_dict`), absent before the first load.  `hashFn` models
`pisa.utils.hash.hash_obj` (the content fingerprint) and `readFile` models
`pisa.utils.fileio.from_file` (the resource reader); both live outside this
stage and are abstract parameters here.  The second component of the result
counts how many resource reads the call performed, so that an injected
counting reader is observable. -/
def load_pid_energy_param (hashFn : PidSource → Nat)
    (readFile : String → EnergyParamDict)
    (st : Option (Nat × EnergyParamDict)) (src : PidSource) :
    Option (Nat × EnergyParamDict) × Nat :=
  let this_hash := hashFn src
  let fresh : Option (Nat × EnergyParamDict) × Nat :=
    match src with
    | .str p => (some (this_hash, readFile p), 1)
    | .dict d => (some (this_hash, d), 0)
  match st with
  | some (h₀, d₀) => if this_hash = h₀ then (some (h₀, d₀), 0) else fresh
  | none => fresh

/-- Python `s.replace('bar', '')` on the character list: scan left to right,
removing each non-overlapping occurrence of `bar`. -/
def stripBarChars : List Char → List Char
  | 'b' :: 'a' :: 'r' :: rest => stripBarChars rest
  | c :: rest => c :: stripBarChars rest
  | [] => []

/-- Python `s.replace('bar', '')`. -/
def stripBar (s : String) : String :=
  ⟨stripBarChars s.data⟩

/-- Python `s.split('+')`. -/
def splitPlus : List Char → List (List Char)
  | [] => [[]]
  | '+' :: rest => [] :: splitPlus rest
  | c :: rest =>
    match splitPlus rest with
    | [] => [[c]]
    | h :: t => (c :: h) :: t

/-- `param.find_energy_param`: exact key match first; for an absent name
containing `'+'`, take the part before the first `'+'` (`split('+')[0]`) and
after the last `'+'` (`split('+')[-1]`), and if stripping `bar` from the
latter yields the former, fall back to the bare flavour name. -/
def find_energy_param (d : EnergyParamDict) (flavstr : String) :
    Except PIDError EnergyParamEntry :=
  match lookupKey d flavstr with
  | some e => .ok e
  | none =>
    if flavstr.data.contains '+' then
      let parts := splitPlus flavstr.data
      let nubar : String := ⟨parts.getLastD []⟩
      let nu : String := ⟨parts.headD []⟩
      if stripBar nubar = nu then
        match lookupKey d nu with
        | some e => .ok e
        | none => .error (.lookupFailure nu (dictKeys d))
      else
        .error (.notJoinedFlav flavstr)
    else
      .error (.lookupFailure flavstr (dictKeys d))

/-- numpy `np.repeat(xs, n)`: each element repeated `n` times in place. -/
def npRepeat (xs : List ℚ) (n : Nat) : List ℚ :=
  xs.flatMap (fun v => List.replicate n v)

/-- numpy `np.reshape(xs, (nr, nc))` for a conforming 1-D input, as the list
of its `nr` rows of `nc` row-major entries. -/
def npReshape2 (xs : List ℚ) (nr nc : Nat) : List (List ℚ) :=
  (List.range nr).map (fun r => (List.range nc).map (fun c => xs.getD (r * nc + c) 0))

/-- numpy `.T` on a rectangular, non-empty 2-D array given by rows. -/
def npTransposeRows (m : List (List ℚ)) : List (List ℚ) :=
  match m with
  | [] => []
  | r :: _ => (List.range r.length).map (fun j => m.map (fun row => row.getD j 0))

/-- The weight array of one transform: 1-D over energy or 2-D after the
zenith broadcast. -/
inductive PidArray : Type
  | oneD (xs : List ℚ)
  | twoD (m : List (List ℚ))
  deriving DecidableEq, Repr

/-- Lines 318–331 of `param.py`: evaluate the parameterisation function at
every energy bin center (`pid1d = pid_param(ecen)`, elementwise); if the
binning has a `reco_coszen` dimension, broadcast via
`np.reshape(np.repeat(pid1d, len(czcen)), (len(ecen), len(czcen)))`,
transposing when `reco_coszen` is the first binning dimension. -/
def evalCurve (ecen : List ℚ) (input_binning : MultiDimBinning) (f : PidExpr) :
    PidArray :=
  let pid1d := ecen.map f
  match lookupDim input_binning "reco_coszen" with
  | some czdim =>
    let czcen := czdim.weighted_centers
    let pid2d := npReshape2 (npRepeat pid1d czcen.length) ecen.length czcen.length
    if (binningNames input_binning).headD "" = "reco_coszen" then
      .twoD (npTransposeRows pid2d)
    else
      .twoD pid2d
  | none => .oneD pid1d

/-- `pisa.core.transform.BinnedTensorTransform`, reduced to the fields the
stage sets (the single input name, the output name, the two binnings and the
weight array). -/
structure BinnedTensorTransform where
  input_name : String
  output_name : String
  input_binning : MultiDimBinning
  output_binning : MultiDimBinning
  xform_array : PidArray
  deriving DecidableEq, Repr

/-- `param.suffix_channel`: `'%s_%s' % (flavint, channel)`. -/
def suffix_channel (flavint channel : String) : String :=
  flavint ++ "_" ++ channel

/-- A flavour/interaction transform group.

Modelled from the spec: `pisa.utils.flavInt.NuFlavIntGroup` is not under
`src/`; per the spec's data model a FlavorGroup is a named set of
flavour/interaction identifiers, so the model keeps its string form
(`str(flav_int_group)`) and its member identifiers (`input_name in
flav_int_group`). -/
structure FlavIntGroup where
  name : String
  members : List String
  deriving DecidableEq, Repr

/-- Lines 333–344 of `param.py`: one `BinnedTensorTransform` per input name
that belongs to the group (others are skipped by `continue`), all carrying
the same already-evaluated weight array. -/
def channelTransforms (input_binning : MultiDimBinning)
    (input_names : List String) (group : FlavIntGroup) (sig : String)
    (arr : PidArray) : List BinnedTensorTransform :=
  input_names.filterMap (fun input_name =>
    if input_name ∈ group.members then
      some { input_name := input_name
             output_name := suffix_channel input_name sig
             input_binning := input_binning
             output_binning := input_binning
             xform_array := arr }
    else
      none)

/-- `self.output_channels = ('trck', 'cscd')`. -/
def output_channels : List String := ["trck", "cscd"]

/-- A Python `for` loop body that can raise, aborting at the first error
(monadic map over `Except`, written with explicit matches). -/
def exceptMapM {α β ε : Type} (f : α → Except ε β) : List α → Except ε (List β)
  | [] => .ok []
  | a :: as =>
    match f a with
    | .error e => .error e
    | .ok b =>
      match exceptMapM f as with
      | .error e => .error e
      | .ok bs => .ok (b :: bs)

/-- One iteration of the `for sig in self.output_channels` loop: fetch
`energy_param[sig]` and build the group's transforms for that channel from
the evaluated curve. -/
def sigTransforms (ecen : List ℚ) (input_binning : MultiDimBinning)
    (input_names : List String) (group : FlavIntGroup)
    (energy_param : EnergyParamEntry) (sig : String) :
    Except PIDError (List BinnedTensorTransform) :=
  match lookupKey energy_param sig with
  | none => .error (.keyError sig)
  | some f =>
    .ok (channelTransforms input_binning input_names group sig
      (evalCurve ecen input_binning f))

/-- Lines 296–344 of `param.py` for one group, after its entry has been
found: the channel-key validation (`list(self.output_channels) !=
energy_param.keys()`, an order-sensitive list comparison) followed by the
per-channel transform assembly. -/
def entryTransforms (ecen : List ℚ) (input_binning : MultiDimBinning)
    (input_names : List String) (group : FlavIntGroup)
    (energy_param : EnergyParamEntry) :
    Except PIDError (List BinnedTensorTransform) :=
  if output_channels ≠ dictKeys energy_param then
    .error (.badChannels output_channels (dictKeys energy_param))
  else
    match exceptMapM (sigTransforms ecen input_binning input_names group
        energy_param) output_channels with
    | .error e => .error e
    | .ok ls => .ok ls.flatten

/-- One iteration of the `for flav_int_group in self.transform_groups` loop. -/
def groupTransforms (ecen : List ℚ) (input_binning : MultiDimBinning)
    (input_names : List String) (d : EnergyParamDict) (group : FlavIntGroup) :
    Except PIDError (List BinnedTensorTransform) :=
  match find_energy_param d group.name with
  | .error e => .error e
  | .ok energy_param =>
    entryTransforms ecen input_binning input_names group energy_param

/-- `param._compute_nominal_transforms` (with the parameterisation already
loaded): read the energy bin centers, then assemble the transforms of every
group, in order.  The returned list is the `TransformSet`'s transforms. -/
def computeNominalTransforms (input_binning : MultiDimBinning)
    (transform_groups : List FlavIntGroup) (input_names : List String)
    (d : EnergyParamDict) : Except PIDError (List BinnedTensorTransform) :=
  match lookupDim input_binning "reco_energy" with
  | none => .error .missingEnergy
  | some edim =>
    match exceptMapM (groupTransforms edim.weighted_centers input_binning
        input_names d) transform_groups with
    | .error e => .error e
    | .ok ls => .ok ls.flatten

/-- A numpy N-dimensional array: its shape and its row-major flat data. -/
structure NDArray where
  shape : List Nat
  data : List ℚ
  deriving DecidableEq, Repr

/-- Row-major flat position of a multi-index:
`((i₀·s₁ + i₁)·s₂ + i₂)·…`. -/
def flatIndex : List Nat → List Nat → Nat
  | _ :: ss, i :: is => i * ss.prod + flatIndex ss is
  | _, _ => 0

/-- Element access `a[i₀, i₁, …]` (0 outside the data). -/
def NDArray.at (a : NDArray) (idx : List Nat) : ℚ :=
  a.data.getD (flatIndex a.shape idx) 0

/-- All multi-indices of a shape, in row-major (lexicographic) order. -/
def allIndices : List Nat → List (List Nat)
  | [] => [[]]
  | s :: ss => (List.range s).flatMap (fun i => (allIndices ss).map (i :: ·))

/-- `np.array([a, b])` for two same-shaped arrays: stack along a new leading
axis of size 2. -/
def npStack2 (a b : NDArray) : NDArray :=
  { shape := 2 :: a.shape, data := a.data ++ b.data }

/-- `np.rollaxis(a, 0, 3)`: numpy first checks `0 <= start < ndim + 1` with
`start = 3` and raises `AxisError` when the array has fewer than 3
dimensions; otherwise it transposes to the axis order `(1, 2, 0, 3, 4, …)`,
i.e. the leading axis is moved to position 2. -/
def npRollaxis03 (a : NDArray) : Except PIDError NDArray :=
  match a.shape with
  | s₀ :: s₁ :: s₂ :: rest =>
    let newShape := s₁ :: s₂ :: s₀ :: rest
    .ok { shape := newShape
          data := (allIndices newShape).map (fun ix =>
            match ix with
            | j₀ :: j₁ :: j₂ :: jrest => a.data.getD (flatIndex a.shape (j₂ :: j₀ :: j₁ :: jrest)) 0
            | _ => 0) }
  | _ => .error .axisError

/-- `pisa.core.map.Map`, reduced to the fields `get_outputs` sets. -/
structure Map where
  name : String
  hist : NDArray
  binning : MultiDimBinning
  deriving DecidableEq, Repr

/-- `OneDimBinning(name='pid', bin_edges=[0,1,2])`.  The stage does not
inspect the centers; they are the bin midpoints the constructor derives. -/
def dummy_pid : OneDimBinning :=
  { name := "pid", bin_edges := [0, 1, 2], weighted_centers := [1/2, 3/2] }

/-- Lines 352–358 of `param.py`: the output binning the recombined maps are
built against — the caller's binning itself when it already has a `pid`
axis, else the caller's binning with the dummy `pid` axis appended. -/
def adjustedOutputBinning (orig_output_binning : MultiDimBinning) :
    MultiDimBinning :=
  if "pid" ∈ binningNames orig_output_binning then
    orig_output_binning
  else
    orig_output_binning ++ [dummy_pid]

/-- Lines 362–365 of `param.py` for one output name: stack the `_cscd` and
`_trck` histograms (in that order) along a new leading axis and roll that
axis with `np.rollaxis(hist, 0, 3)`. -/
def recombineOne (outputs : String → NDArray) (name : String) :
    Except PIDError NDArray :=
  npRollaxis03 (npStack2 (outputs (name ++ "_cscd")) (outputs (name ++ "_trck")))

/-- The recombination loop of `param.get_outputs` (lines 352–368).  The
per-flavour histograms produced by the framework's transform application
(`super().get_outputs`) enter as the lookup `outputs` from map name to
histogram; the result is the list of maps of the returned `MapSet`. -/
def get_outputs_recombine (output_names : List String)
    (outputs : String → NDArray) (orig_output_binning : MultiDimBinning) :
    Except PIDError (List Map) :=
  let ob := adjustedOutputBinning orig_output_binning
  exceptMapM (fun name =>
    match recombineOne outputs name with
    | .error e => .error e
    | .ok h => .ok { name := name, hist := h, binning := ob }) output_names

/-- A 3-bin energy dimension with weighted centers `[1, 10, 100]`. -/
def sampleEnergyDim : OneDimBinning :=
  { name := "reco_energy", bin_edges := [1/2, 5, 50, 500],
    weighted_centers := [1, 10, 100] }

/-- The energy-only input binning of the spec's end-to-end scenario. -/
def sampleBinning : MultiDimBinning := [sampleEnergyDim]

/-- The transform group named `numu_cc` containing the single input flavour
`numu_cc`. -/
def sampleGroup : FlavIntGroup := { name := "numu_cc", members := ["numu_cc"] }

/-- A parameterisation entry whose `trck` expression evaluates to the
constant function `0.9` and whose `cscd` expression to the constant `0.1`. -/
def sampleEntry : EnergyParamEntry :=
  [("trck", fun _ => 9/10), ("cscd", fun _ => 1/10)]

/-- The parameterisation dict of the end-to-end scenario. -/
def sampleDict : EnergyParamDict := [("numu_cc", sampleEntry)]

/-- Claim C1: for the group `numu_cc` with `trck ↦ 0.9` and `cscd ↦ 0.1`
over the energy-only binning with centers `[1, 10, 100]` and input flavour
`numu_cc`, `_compute_nominal_transforms` returns a `TransformSet` containing
the transform `numu_cc → numu_cc_trck` with weight array `[0.9, 0.9, 0.9]`
and the transform `numu_cc → numu_cc_cscd` with weight array
`[0.1, 0.1, 0.1]`. -/
theorem pid_end_to_end_numu_cc :
    ∃ ts, computeNominalTransforms sampleBinning [sampleGroup] ["numu_cc"]
        sampleDict = .ok ts ∧
      ({ input_name := "numu_cc", output_name := "numu_cc_trck",
         input_binning := sampleBinning, output_binning := sampleBinning,
         xform_array := .oneD [9/10, 9/10, 9/10] } : BinnedTensorTransform) ∈ ts ∧
      ({ input_name := "numu_cc", output_name := "numu_cc_cscd",
         input_binning := sampleBinning, output_binning := sampleBinning,
         xform_array := .oneD [1/10, 1/10, 1/10] } : BinnedTensorTransform) ∈ ts :=
  ⟨_, rfl, .head _, .tail _ (.head _)⟩

/-- Claim C6: `validate_binning` rejects every binning containing a
`reco_azimuth` axis, every binning lacking a `reco_energy` axis, and every
binning whose first axis is neither `reco_energy` nor `reco_coszen`; a
binning with an energy axis, no azimuth axis, and an energy or zenith first
axis passes. -/
theorem pid_validate_binning_cases (b : MultiDimBinning) :
    ("reco_azimuth" ∈ binningNames b → ∃ e, validate_binning b = .error e) ∧
    ("reco_energy" ∉ binningNames b → ∃ e, validate_binning b = .error e) ∧
    ((binningNames b).headD "" ≠ "reco_energy" →
      (binningNames b).headD "" ≠ "reco_coszen" →
      ∃ e, validate_binning b = .error e) ∧
    ("reco_energy" ∈ binningNames b → "reco_azimuth" ∉ binningNames b →
      ((binningNames b).headD "" = "reco_energy" ∨
        (binningNames b).headD "" = "reco_coszen") →
      validate_binning b = .ok ()) := by
  refine ⟨?_, ?_, ?_, ?_⟩
  · intro ha
    unfold validate_binning
    split_ifs <;> first | exact ⟨_, rfl⟩ | tauto
  · intro he
    unfold validate_binning
    split_ifs <;> first | exact ⟨_, rfl⟩ | tauto
  · intro hne hnz
    unfold validate_binning
    split_ifs <;> first | exact ⟨_, rfl⟩ | tauto
  · intro he hna hd
    unfold validate_binning
    split_ifs <;> first | rfl | tauto

/-- Witness for C6 at a binning containing an azimuth axis. -/
theorem pid_validate_binning_cases_witness :
    "reco_azimuth" ∈
      binningNames [sampleEnergyDim, ⟨"reco_azimuth", [0, 1], [1/2]⟩] ∧
    ∃ e, validate_binning [sampleEnergyDim, ⟨"reco_azimuth", [0, 1], [1/2]⟩] =
      .error e :=
  ⟨by decide,
    (pid_validate_binning_cases
      [sampleEnergyDim, ⟨"reco_azimuth", [0, 1], [1/2]⟩]).1 (by decide)⟩

/-- A key listed among a dict's keys has a value. -/
theorem lookupKey_isSome_of_mem {α : Type} (d : List (String × α)) (k : String)
    (h : k ∈ dictKeys d) : ∃ v, lookupKey d k = some v := by
  induction d with
  | nil => simp [dictKeys] at h
  | cons kv rest ih =>
    obtain ⟨k', v⟩ := kv
    by_cases hk : k = k'
    · exact ⟨v, by simp [lookupKey, hk]⟩
    · have : k ∈ dictKeys rest := by
        simpa [dictKeys, hk] using h
      obtain ⟨w, hw⟩ := ih this
      exact ⟨w, by simp [lookupKey, hk, hw]⟩

/-- Claim C5 (amended): the channel-key validation of
`_compute_nominal_transforms` is an order-sensitive list comparison: a
group's assembly succeeds exactly when the entry's stored key list is
`["trck", "cscd"]` in that order, and any other stored key list — including
one holding the same two keys in the other order — fails with the
channel-mismatch error naming both lists. -/
theorem pid_channel_key_validation (ecen : List ℚ) (b : MultiDimBinning)
    (names : List String) (g : FlavIntGroup) (ep : EnergyParamEntry) :
    ((∃ l, entryTransforms ecen b names g ep = .ok l) ↔
      dictKeys ep = output_channels) ∧
    (dictKeys ep ≠ output_channels →
      entryTransforms ecen b names g ep =
        .error (.badChannels output_channels (dictKeys ep))) := by
  constructor
  · constructor
    · rintro ⟨l, hl⟩
      unfold entryTransforms at hl
      by_cases hk : output_channels = dictKeys ep
      · exact hk.symm
      · rw [if_pos hk] at hl
        simp at hl
    · intro hk
      have htr : ∃ f, lookupKey ep "trck" = some f :=
        lookupKey_isSome_of_mem ep "trck" (by rw [hk]; simp [output_channels])
      have hcs : ∃ f, lookupKey ep "cscd" = some f :=
        lookupKey_isSome_of_mem ep "cscd" (by rw [hk]; simp [output_channels])
      obtain ⟨ftr, htr⟩ := htr
      obtain ⟨fcs, hcs⟩ := hcs
      unfold entryTransforms
      rw [if_neg (by rw [hk]; exact fun h => h rfl)]
      simp [output_channels, exceptMapM, sigTransforms, htr, hcs]
  · intro hk
    unfold entryTransforms
    rw [if_pos (fun h => hk h.symm)]

/-- The entry of the end-to-end scenario with its two channel keys stored in
the other order (`["cscd", "trck"]`): the same key set, differently ordered. -/
def swappedEntry : EnergyParamEntry :=
  [("cscd", fun _ => 1/10), ("trck", fun _ => 9/10)]

/-- Counterexample to claim C5 as stated: an entry whose key set equals
{trck, cscd} but is stored in the order `["cscd", "trck"]` fails the
validation instead of passing it. -/
theorem pid_channel_key_order_counterexample :
    dictKeys swappedEntry = ["cscd", "trck"] ∧
    entryTransforms [1, 10, 100] sampleBinning ["numu_cc"] sampleGroup
      swappedEntry =
      .error (.badChannels ["trck", "cscd"] ["cscd", "trck"]) :=
  ⟨rfl, rfl⟩

/-- Witness for C5's amended theorem at the reordered entry. -/
theorem pid_channel_key_validation_witness :
    dictKeys swappedEntry ≠ output_channels ∧
    entryTransforms [1, 10, 100] sampleBinning ["numu_cc"] sampleGroup
      swappedEntry =
      .error (.badChannels output_channels (dictKeys swappedEntry)) :=
  ⟨by decide,
    (pid_channel_key_validation [1, 10, 100] sampleBinning ["numu_cc"]
      sampleGroup swappedEntry).2 (by decide)⟩

/-- Claim C8: a first load from a resource performs exactly one read, and a
second call whose source fingerprint equals the stored one is a no-op — no
further read, and the stored fingerprint and decoded mapping unchanged. -/
theorem pid_loader_cache_noop (hashFn : PidSource → Nat)
    (readFile : String → EnergyParamDict) (p : String) (src₂ : PidSource)
    (st₁ : Option (Nat × EnergyParamDict)) (n₁ : Nat)
    (h₁ : load_pid_energy_param hashFn readFile none (.str p) = (st₁, n₁))
    (h₂ : hashFn src₂ = hashFn (.str p)) :
    n₁ = 1 ∧ load_pid_energy_param hashFn readFile st₁ src₂ = (st₁, 0) := by
  have hs : some (hashFn (.str p), readFile p) = st₁ := congrArg Prod.fst h₁
  have hn : (1 : Nat) = n₁ := congrArg Prod.snd h₁
  subst hs
  subst hn
  exact ⟨rfl, by simp [load_pid_energy_param, h₂]⟩

/-- Witness for C8: a constant fingerprint and a constant reader. -/
theorem pid_loader_cache_noop_witness :
    (1 : Nat) = 1 ∧
    load_pid_energy_param (fun _ => 7) (fun _ => sampleDict)
      (some (7, sampleDict)) (.str "pid_param.json") =
      (some (7, sampleDict), 0) :=
  pid_loader_cache_noop (fun _ => 7) (fun _ => sampleDict) "pid_param.json"
    (.str "pid_param.json") (some (7, sampleDict)) 1 rfl rfl

/-- Claim C3 (code bug): the recombination is supposed to insert the
classification axis last regardless of the other axes, but
`np.rollaxis(hist, 0, 3)` hardcodes `start=3`: over a one-dimensional
energy-only binning — which `validate_binning` accepts — the stacked
histogram is 2-D and the roll raises numpy's `AxisError` instead of
producing any recombined histogram. -/
theorem pid_recombine_one_dim_axis_failure :
    validate_binning sampleBinning = .ok () ∧
    get_outputs_recombine ["numu_cc"]
      (fun s => if s = "numu_cc_cscd" then ⟨[3], [1/2, 1/2, 1/2]⟩
                else ⟨[3], [1/4, 1/4, 1/4]⟩)
      sampleBinning = .error .axisError :=
  ⟨rfl, rfl⟩

/-- A successful `exceptMapM` maps each output back to some input. -/
theorem exceptMapM_ok_mem {α β ε : Type} {f : α → Except ε β} :
    ∀ {l : List α} {ys : List β}, exceptMapM f l = .ok ys →
      ∀ y ∈ ys, ∃ x ∈ l, f x = .ok y := by
  intro l
  induction l with
  | nil =>
    intro ys h y hy
    unfold exceptMapM at h
    obtain rfl : ([] : List β) = ys := by simpa using h
    simp at hy
  | cons a as ih =>
    intro ys h y hy
    unfold exceptMapM at h
    cases hfa : f a with
    | error e => rw [hfa] at h; simp at h
    | ok b =>
      rw [hfa] at h
      cases hms : exceptMapM f as with
      | error e => rw [hms] at h; simp at h
      | ok bs =>
        rw [hms] at h
        obtain rfl : b :: bs = ys := by simpa using h
        rcases List.mem_cons.mp hy with rfl | hy2
        · exact ⟨a, List.mem_cons_self a as, hfa⟩
        · obtain ⟨x, hx, hfx⟩ := ih hms y hy2
          exact ⟨x, List.mem_cons_of_mem a hx, hfx⟩

/-- Claim C9: when the requested output binning lacks a `pid` axis, the
binning the recombined maps are built against is that binning with the
synthetic `pid` axis (three edges spanning two bins) appended; when it
already has one, the requested binning is used verbatim; and every map
produced by the recombination carries that (possibly-extended) binning. -/
theorem pid_output_binning_pid_axis (output_names : List String)
    (outputs : String → NDArray) (orig : MultiDimBinning) (maps : List Map) :
    ("pid" ∉ binningNames orig →
      adjustedOutputBinning orig = orig ++ [dummy_pid] ∧
      dummy_pid.bin_edges.length = 3 ∧ dummy_pid.bin_edges.length - 1 = 2) ∧
    ("pid" ∈ binningNames orig → adjustedOutputBinning orig = orig) ∧
    (get_outputs_recombine output_names outputs orig = .ok maps →
      ∀ m ∈ maps, m.binning = adjustedOutputBinning orig) := by
  refine ⟨fun h => ⟨?_, rfl, rfl⟩, fun h => ?_, fun h m hm => ?_⟩
  · simp [adjustedOutputBinning, h]
  · simp [adjustedOutputBinning, h]
  · unfold get_outputs_recombine at h
    obtain ⟨x, _, hfx⟩ := exceptMapM_ok_mem h m hm
    cases hro : recombineOne outputs x with
    | error e => rw [hro] at hfx; simp at hfx
    | ok hist =>
      rw [hro] at hfx
      obtain rfl : (⟨x, hist, adjustedOutputBinning orig⟩ : Map) = m := by
        simpa using hfx
      rfl

/-- The zenith dimension used in concrete two-dimensional scenarios. -/
def sampleCoszenDim : OneDimBinning :=
  { name := "reco_coszen", bin_edges := [-1, 0, 1],
    weighted_centers := [-1/2, 1/2] }

/-- The map produced by recombining two concrete 2×2 histograms over the
(energy, coszen) binning. -/
def pidAxisWitnessMaps : List Map :=
  [{ name := "numu_cc",
     hist := ⟨[2, 2, 2], [1, 5, 2, 6, 3, 7, 4, 8]⟩,
     binning := adjustedOutputBinning [sampleEnergyDim, sampleCoszenDim] }]

/-- Witness for C9 on a successful two-dimensional recombination. -/
theorem pid_output_binning_pid_axis_witness :
    get_outputs_recombine ["numu_cc"]
      (fun s => if s = "numu_cc_cscd" then ⟨[2, 2], [1, 2, 3, 4]⟩
                else ⟨[2, 2], [5, 6, 7, 8]⟩)
      [sampleEnergyDim, sampleCoszenDim] = .ok pidAxisWitnessMaps ∧
    ∀ m ∈ pidAxisWitnessMaps,
      m.binning = adjustedOutputBinning [sampleEnergyDim, sampleCoszenDim] :=
  ⟨rfl,
    (pid_output_binning_pid_axis ["numu_cc"]
      (fun s => if s = "numu_cc_cscd" then ⟨[2, 2], [1, 2, 3, 4]⟩
                else ⟨[2, 2], [5, 6, 7, 8]⟩)
      [sampleEnergyDim, sampleCoszenDim] pidAxisWitnessMaps).2.2 rfl⟩

/-- Claim C4 (amended): `find_energy_param` returns the entry under the
exact key when present; for an absent name containing `'+'` whose last
`'+'`-part, with every `bar` removed, equals its first `'+'`-part, it
returns the entry under that first part, or fails with the lookup error
naming the bare flavour and the available keys when that part is not a key;
an absent name without `'+'` fails with the lookup error naming the name and
the available keys; an absent combined name whose halves are not a
flavour/antiflavour pair fails with the error naming only the offending
name — the available keys are not part of that error. -/
theorem pid_find_energy_param_resolution (d : EnergyParamDict)
    (flavstr : String) :
    (∀ e, lookupKey d flavstr = some e →
      find_energy_param d flavstr = .ok e) ∧
    (lookupKey d flavstr = none → flavstr.data.contains '+' = false →
      find_energy_param d flavstr =
        .error (.lookupFailure flavstr (dictKeys d))) ∧
    (lookupKey d flavstr = none → flavstr.data.contains '+' = true →
      stripBar ⟨(splitPlus flavstr.data).getLastD []⟩ =
        (⟨(splitPlus flavstr.data).headD []⟩ : String) →
      ((∀ e, lookupKey d ⟨(splitPlus flavstr.data).headD []⟩ = some e →
          find_energy_param d flavstr = .ok e) ∧
        (lookupKey d ⟨(splitPlus flavstr.data).headD []⟩ = none →
          find_energy_param d flavstr =
            .error (.lookupFailure ⟨(splitPlus flavstr.data).headD []⟩
              (dictKeys d))))) ∧
    (lookupKey d flavstr = none → flavstr.data.contains '+' = true →
      stripBar ⟨(splitPlus flavstr.data).getLastD []⟩ ≠
        (⟨(splitPlus flavstr.data).headD []⟩ : String) →
      find_energy_param d flavstr = .error (.notJoinedFlav flavstr)) := by
  refine ⟨fun e he => ?_, fun hn hc => ?_, fun hn hc hs => ⟨fun e he => ?_, fun hnone => ?_⟩,
    fun hn hc hs => ?_⟩
  · unfold find_energy_param
    rw [he]
  · simp at hc
    simp [find_energy_param, hn, hc]
  · simp at hc hs he
    simp [find_energy_param, hn, hc, hs, he]
  · simp at hc hs hnone
    simp [find_energy_param, hn, hc, hs, hnone]
  · simp at hc hs
    simp [find_energy_param, hn, hc, hs]

/-- The `nu` entry used by the combined-flavour lookup scenarios. -/
def nuOnlyEntry : EnergyParamEntry :=
  [("trck", fun _ => 0), ("cscd", fun _ => 1)]

/-- A parameterisation dict holding only the bare key `"nu"`. -/
def nuOnlyDict : EnergyParamDict := [("nu", nuOnlyEntry)]

/-- Counterexample to claim C4 as stated: for the combined form
`"nu+notnubar"` whose halves are not a flavour/antiflavour pair, the raised
error carries only the offending name — it is the joined-flavour error,
which does not name the available keys. -/
theorem pid_find_energy_param_joined_error_counterexample :
    find_energy_param nuOnlyDict "nu+notnubar" =
      .error (.notJoinedFlav "nu+notnubar") := rfl

/-- Witness for C4's amended theorem: `"nu+nubar"` resolves to the entry
stored under the bare `"nu"`. -/
theorem pid_find_energy_param_resolution_witness :
    lookupKey nuOnlyDict "nu+nubar" = none ∧
    find_energy_param nuOnlyDict "nu+nubar" = .ok nuOnlyEntry :=
  ⟨rfl,
    ((pid_find_energy_param_resolution nuOnlyDict "nu+nubar").2.2.1
      rfl rfl rfl).1 nuOnlyEntry rfl⟩

/-- Entry `r·n + c` of `np.repeat(xs, n)` is entry `r` of `xs`. -/
theorem npRepeat_getD (xs : List ℚ) (n : Nat) :
    ∀ (r : Nat) (c : Nat), r < xs.length → c < n →
      (npRepeat xs n).getD (r * n + c) 0 = xs.getD r 0 := by
  induction xs with
  | nil => intro r c hr _; simp at hr
  | cons x xs ih =>
    intro r c hr hc
    cases r with
    | zero =>
      simp only [npRepeat, List.flatMap_cons]
      rw [Nat.zero_mul, Nat.zero_add]
      rw [List.getD_eq_getElem?_getD, List.getElem?_append]
      simp [List.getElem?_replicate, hc]
    | succ r =>
      simp only [npRepeat, List.flatMap_cons]
      have hidx : (r + 1) * n + c = n + (r * n + c) := by ring
      rw [hidx, List.getD_eq_getElem?_getD, List.getElem?_append]
      simp only [List.length_replicate]
      rw [if_neg (by omega)]
      simp only [Nat.add_sub_cancel_left]
      rw [← List.getD_eq_getElem?_getD]
      have := ih r c (by simpa using hr) hc
      simpa [npRepeat] using this

/-- A reshape to `nr` rows has `nr` rows. -/
theorem npReshape2_length (xs : List ℚ) (nr nc : Nat) :
    (npReshape2 xs nr nc).length = nr := by
  simp [npReshape2]

/-- Entry `j` of a map over `List.range n`. -/
theorem range_map_getD {α : Type} (g : Nat → α) (n j : Nat) (d : α)
    (hj : j < n) : ((List.range n).map g).getD j d = g j := by
  simp [List.getD_eq_getElem?_getD, List.getElem?_map, List.getElem?_range, hj]

/-- Row `i` of a reshape, written as a map over the column range. -/
theorem npReshape2_getD_row (xs : List ℚ) (nr nc i : Nat) (hi : i < nr) :
    (npReshape2 xs nr nc).getD i [] =
      (List.range nc).map (fun c => xs.getD (i * nc + c) 0) := by
  exact range_map_getD _ _ _ _ hi

/-- `getD` through `List.map` at an in-bounds index. -/
theorem map_getD_lt (xs : List ℚ) (f : ℚ → ℚ) (i : Nat) (hi : i < xs.length) :
    (xs.map f).getD i 0 = f (xs.getD i 0) := by
  simp [List.getD_eq_getElem?_getD, List.getElem?_map, List.getElem?_eq_getElem hi]

/-- The transpose of a non-empty reshape, row by row. -/
theorem npTransposeRows_reshape (xs : List ℚ) (nr nc : Nat) (h : 0 < nr) :
    npTransposeRows (npReshape2 xs nr nc) =
      (List.range nc).map (fun j =>
        (npReshape2 xs nr nc).map (fun row => row.getD j 0)) := by
  obtain ⟨n, rfl⟩ : ∃ n, nr = n + 1 := ⟨nr - 1, by omega⟩
  conv_lhs => rw [npReshape2, List.range_succ_eq_map, List.map_cons]
  rw [npTransposeRows]
  simp only [List.length_map, List.length_range]
  rw [npReshape2, List.range_succ_eq_map, List.map_cons]

/-- Claim C2: the evaluated curve array's shape equals the input binning's
shape — an energy-only binning yields the 1-D curve over the energy bin
centers; an (energy, coszen) binning yields a 2-D array with energy rows; a
(coszen, energy) binning yields the transposed 2-D array with coszen rows —
and in both 2-D layouts the entry at energy index `i` and zenith index `j`
is the 1-D curve's value at energy index `i`, for every zenith bin. -/
theorem pid_curve_shape_broadcast (f : PidExpr) (edim czdim : OneDimBinning)
    (he : edim.name = "reco_energy") (hz : czdim.name = "reco_coszen") :
    (evalCurve edim.weighted_centers [edim] f =
        .oneD (edim.weighted_centers.map f) ∧
      (edim.weighted_centers.map f).length = edim.weighted_centers.length) ∧
    (∃ m, evalCurve edim.weighted_centers [edim, czdim] f = .twoD m ∧
      m.length = edim.weighted_centers.length ∧
      (∀ i, i < edim.weighted_centers.length →
        (m.getD i []).length = czdim.weighted_centers.length) ∧
      (∀ i j, i < edim.weighted_centers.length →
        j < czdim.weighted_centers.length →
        (m.getD i []).getD j 0 = f (edim.weighted_centers.getD i 0))) ∧
    (0 < edim.weighted_centers.length →
      ∃ m, evalCurve edim.weighted_centers [czdim, edim] f = .twoD m ∧
        m.length = czdim.weighted_centers.length ∧
        (∀ j, j < czdim.weighted_centers.length →
          (m.getD j []).length = edim.weighted_centers.length) ∧
        (∀ i j, i < edim.weighted_centers.length →
          j < czdim.weighted_centers.length →
          (m.getD j []).getD i 0 = f (edim.weighted_centers.getD i 0))) := by
  have hne : edim.name ≠ "reco_coszen" := by rw [he]; decide
  refine ⟨⟨?_, by simp⟩, ?_, ?_⟩
  · simp [evalCurve, lookupDim, hne]
  · refine ⟨npReshape2
        (npRepeat (edim.weighted_centers.map f) czdim.weighted_centers.length)
        edim.weighted_centers.length czdim.weighted_centers.length,
      ?_, npReshape2_length _ _ _, ?_, ?_⟩
    · have hcz : lookupDim [edim, czdim] "reco_coszen" = some czdim := by
        simp [lookupDim, hne, hz]
      have hhead : (binningNames [edim, czdim]).head?.getD "" = "reco_energy" := by
        simp [binningNames, he]
      simp [evalCurve, hcz, hhead]
    · intro i hi
      rw [npReshape2_getD_row _ _ _ _ hi]
      simp
    · intro i j hi hj
      rw [npReshape2_getD_row _ _ _ _ hi, range_map_getD _ _ _ _ hj]
      rw [npRepeat_getD _ _ i j (by simpa using hi) hj]
      exact map_getD_lt _ _ _ hi
  · intro hpos
    refine ⟨npTransposeRows (npReshape2
        (npRepeat (edim.weighted_centers.map f) czdim.weighted_centers.length)
        edim.weighted_centers.length czdim.weighted_centers.length),
      ?_, ?_, ?_, ?_⟩
    · have hcz : lookupDim [czdim, edim] "reco_coszen" = some czdim := by
        simp [lookupDim, hz]
      have hhead : (binningNames [czdim, edim]).head?.getD "" = "reco_coszen" := by
        simp [binningNames, hz]
      simp [evalCurve, hcz, hhead]
    · rw [npTransposeRows_reshape _ _ _ hpos]
      simp
    · intro j hj
      rw [npTransposeRows_reshape _ _ _ hpos, range_map_getD _ _ _ _ hj]
      simp [npReshape2]
    · intro i j hi hj
      rw [npTransposeRows_reshape _ _ _ hpos, range_map_getD _ _ _ _ hj]
      rw [npReshape2, List.map_map]
      rw [range_map_getD _ _ _ _ (by simpa using hi)]
      simp only [Function.comp]
      rw [range_map_getD _ _ _ _ hj]
      rw [npRepeat_getD _ _ i j (by simpa using hi) hj]
      exact map_getD_lt _ _ _ hi

/-- Witness for C2: the zenith-first broadcast over the concrete 3×2
binning. -/
theorem pid_curve_shape_broadcast_witness :
    sampleEnergyDim.name = "reco_energy" ∧
    sampleCoszenDim.name = "reco_coszen" ∧
    0 < sampleEnergyDim.weighted_centers.length ∧
    (∃ m, evalCurve sampleEnergyDim.weighted_centers
        [sampleCoszenDim, sampleEnergyDim] (fun e => e) = .twoD m ∧
      m.length = sampleCoszenDim.weighted_centers.length ∧
      (∀ j, j < sampleCoszenDim.weighted_centers.length →
        (m.getD j []).length = sampleEnergyDim.weighted_centers.length) ∧
      (∀ i j, i < sampleEnergyDim.weighted_centers.length →
        j < sampleCoszenDim.weighted_centers.length →
        (m.getD j []).getD i 0 =
          (fun e => e) (sampleEnergyDim.weighted_centers.getD i 0))) :=
  ⟨rfl, rfl, by decide,
    (pid_curve_shape_broadcast (fun e => e) sampleEnergyDim sampleCoszenDim
      rfl rfl).2.2 (by decide)⟩

/-- Replace a parameterisation entry's `cscd` expression, leaving its keys
and its `trck` expression untouched. -/
def updateCscd (g' : PidExpr) (ep : EnergyParamEntry) : EnergyParamEntry :=
  ep.map (fun kv => if kv.1 = "cscd" then (kv.1, g') else kv)

/-- The characters of the `_trck` output-name ending. -/
def trckSuffixChars : List Char := ['_', 't', 'r', 'c', 'k']

/-- Whether a transform is a track-channel transform, read off its output
name (every output name ends in `_trck` or `_cscd` by construction). -/
def isTrckOutput (t : BinnedTensorTransform) : Bool :=
  trckSuffixChars.isSuffixOf t.output_name.data

/-- A list is a Boolean prefix of itself followed by anything. -/
theorem isPrefixOf_append_self (l t : List Char) :
    l.isPrefixOf (l ++ t) = true := by
  induction l with
  | nil => simp [List.isPrefixOf]
  | cons c cs ih => simp [List.isPrefixOf, ih]

/-- A `trck`-channel output name ends in `_trck`. -/
theorem isTrckOutput_trck (nm : String) (b : MultiDimBinning)
    (arr : PidArray) :
    isTrckOutput ⟨nm, suffix_channel nm "trck", b, b, arr⟩ = true := by
  have hd : (suffix_channel nm "trck").data = nm.data ++ trckSuffixChars := by
    simp [suffix_channel, String.data_append, trckSuffixChars]
  simp only [isTrckOutput, hd, List.isSuffixOf, List.reverse_append]
  exact isPrefixOf_append_self _ _

/-- A `cscd`-channel output name never ends in `_trck`. -/
theorem isTrckOutput_cscd (nm : String) (b : MultiDimBinning)
    (arr : PidArray) :
    isTrckOutput ⟨nm, suffix_channel nm "cscd", b, b, arr⟩ = false := by
  have hd : (suffix_channel nm "cscd").data =
      nm.data ++ ['_', 'c', 's', 'c', 'd'] := by
    simp [suffix_channel, String.data_append]
  simp only [isTrckOutput, hd, List.isSuffixOf, List.reverse_append]
  rfl

/-- Every transform emitted for one (group, channel) carries the one
evaluated array. -/
theorem channelTransforms_xform_array (b : MultiDimBinning)
    (names : List String) (g : FlavIntGroup) (sig : String) (arr : PidArray) :
    ∀ t ∈ channelTransforms b names g sig arr, t.xform_array = arr := by
  intro t ht
  obtain ⟨nm, _, hnm⟩ := List.mem_filterMap.mp ht
  by_cases hmem : nm ∈ g.members
  · rw [if_pos hmem] at hnm
    cases hnm
    rfl
  · rw [if_neg hmem] at hnm
    cases hnm

/-- All `trck`-channel transforms pass the track filter. -/
theorem filter_trck_channel_trck (b : MultiDimBinning) (names : List String)
    (g : FlavIntGroup) (arr : PidArray) :
    (channelTransforms b names g "trck" arr).filter isTrckOutput =
      channelTransforms b names g "trck" arr := by
  rw [List.filter_eq_self]
  intro t ht
  obtain ⟨nm, _, hnm⟩ := List.mem_filterMap.mp ht
  by_cases hmem : nm ∈ g.members
  · rw [if_pos hmem] at hnm
    cases hnm
    exact isTrckOutput_trck nm b arr
  · rw [if_neg hmem] at hnm
    cases hnm

/-- No `cscd`-channel transform passes the track filter. -/
theorem filter_trck_channel_cscd (b : MultiDimBinning) (names : List String)
    (g : FlavIntGroup) (arr : PidArray) :
    (channelTransforms b names g "cscd" arr).filter isTrckOutput = [] := by
  rw [List.filter_eq_nil_iff]
  intro t ht
  obtain ⟨nm, _, hnm⟩ := List.mem_filterMap.mp ht
  by_cases hmem : nm ∈ g.members
  · rw [if_pos hmem] at hnm
    cases hnm
    simp [isTrckOutput_cscd nm b arr]
  · rw [if_neg hmem] at hnm
    cases hnm

/-- Replacing the `cscd` expression leaves the key list unchanged. -/
theorem dictKeys_updateCscd (g' : PidExpr) (ep : EnergyParamEntry) :
    dictKeys (updateCscd g' ep) = dictKeys ep := by
  induction ep with
  | nil => rfl
  | cons kv rest ih =>
    by_cases hk : kv.1 = "cscd" <;>
      simp [updateCscd, dictKeys, hk] <;>
      simpa [updateCscd, dictKeys] using ih

/-- Replacing the `cscd` expression leaves the `trck` lookup unchanged. -/
theorem lookupKey_updateCscd_trck (g' : PidExpr) (ep : EnergyParamEntry) :
    lookupKey (updateCscd g' ep) "trck" = lookupKey ep "trck" := by
  induction ep with
  | nil => rfl
  | cons kv rest ih =>
    obtain ⟨k, v⟩ := kv
    by_cases hk : k = "cscd"
    · subst hk
      have hh : updateCscd g' (("cscd", v) :: rest) =
          ("cscd", g') :: updateCscd g' rest := by
        simp [updateCscd]
      rw [hh]
      simp only [lookupKey]
      rw [if_neg (by decide), if_neg (by decide)]
      exact ih
    · have hh : updateCscd g' ((k, v) :: rest) =
          (k, v) :: updateCscd g' rest := by
        simp [updateCscd, hk]
      rw [hh]
      simp only [lookupKey]
      by_cases ht : "trck" = k
      · rw [if_pos ht, if_pos ht]
      · rw [if_neg ht, if_neg ht]
        exact ih

/-- After replacing the `cscd` expression, the `cscd` lookup yields the new
expression. -/
theorem lookupKey_updateCscd_cscd (g' : PidExpr) (ep : EnergyParamEntry) :
    ∀ f, lookupKey ep "cscd" = some f →
      lookupKey (updateCscd g' ep) "cscd" = some g' := by
  induction ep with
  | nil => intro f h; simp [lookupKey] at h
  | cons kv rest ih =>
    intro f h
    obtain ⟨k, v⟩ := kv
    by_cases hk : k = "cscd"
    · subst hk
      have hh : updateCscd g' (("cscd", v) :: rest) =
          ("cscd", g') :: updateCscd g' rest := by
        simp [updateCscd]
      rw [hh]
      simp [lookupKey]
    · have hh : updateCscd g' ((k, v) :: rest) =
          (k, v) :: updateCscd g' rest := by
        simp [updateCscd, hk]
      have hk' : ¬"cscd" = k := fun hh2 => hk hh2.symm
      rw [lookupKey, if_neg hk'] at h
      rw [hh]
      simp only [lookupKey]
      rw [if_neg hk']
      exact ih f h

/-- Claim C7: within one flavour group and one output channel every member
input's transform carries the same evaluated weight array (only the names
differ), and there is no cross-channel contamination: replacing a group's
`cscd` expression leaves the group's `trck` transforms unchanged. -/
theorem pid_group_channel_transform_sharing (ecen : List ℚ)
    (b : MultiDimBinning) (names : List String) (g : FlavIntGroup)
    (sig : String) (arr : PidArray) (ep : EnergyParamEntry) :
    (∀ t₁ ∈ channelTransforms b names g sig arr,
      ∀ t₂ ∈ channelTransforms b names g sig arr,
        t₁.xform_array = t₂.xform_array) ∧
    (∀ g' l₁ l₂, entryTransforms ecen b names g ep = .ok l₁ →
      entryTransforms ecen b names g (updateCscd g' ep) = .ok l₂ →
      l₁.filter isTrckOutput = l₂.filter isTrckOutput) := by
  constructor
  · intro t₁ h₁ t₂ h₂
    rw [channelTransforms_xform_array b names g sig arr t₁ h₁,
      channelTransforms_xform_array b names g sig arr t₂ h₂]
  · intro g' l₁ l₂ h₁ h₂
    unfold entryTransforms at h₁ h₂
    by_cases hkeys : output_channels = dictKeys ep
    · have hktr : "trck" ∈ dictKeys ep := by
        rw [← hkeys]; simp [output_channels]
      have hkcs : "cscd" ∈ dictKeys ep := by
        rw [← hkeys]; simp [output_channels]
      obtain ⟨ftr, hftr⟩ := lookupKey_isSome_of_mem ep "trck" hktr
      obtain ⟨fcs, hfcs⟩ := lookupKey_isSome_of_mem ep "cscd" hkcs
      have hftr2 : lookupKey (updateCscd g' ep) "trck" = some ftr := by
        rw [lookupKey_updateCscd_trck]; exact hftr
      have hfcs2 : lookupKey (updateCscd g' ep) "cscd" = some g' :=
        lookupKey_updateCscd_cscd g' ep fcs hfcs
      rw [if_neg (fun hcon => hcon hkeys)] at h₁
      rw [if_neg (fun hcon =>
        hcon (by rw [dictKeys_updateCscd]; exact hkeys))] at h₂
      simp only [output_channels, exceptMapM, sigTransforms, hftr, hfcs] at h₁
      simp only [output_channels, exceptMapM, sigTransforms, hftr2, hfcs2] at h₂
      injection h₁ with h₁
      injection h₂ with h₂
      subst h₁
      subst h₂
      simp [List.filter_append, filter_trck_channel_trck,
        filter_trck_channel_cscd]
    · rw [if_pos hkeys] at h₁
      simp at h₁

/-- The transforms of the end-to-end entry. -/
def sharingWitnessL1 : List BinnedTensorTransform :=
  [⟨"numu_cc", "numu_cc_trck", sampleBinning, sampleBinning,
    .oneD [9/10, 9/10, 9/10]⟩,
   ⟨"numu_cc", "numu_cc_cscd", sampleBinning, sampleBinning,
    .oneD [1/10, 1/10, 1/10]⟩]

/-- The transforms after replacing the `cscd` expression by `0.2`. -/
def sharingWitnessL2 : List BinnedTensorTransform :=
  [⟨"numu_cc", "numu_cc_trck", sampleBinning, sampleBinning,
    .oneD [9/10, 9/10, 9/10]⟩,
   ⟨"numu_cc", "numu_cc_cscd", sampleBinning, sampleBinning,
    .oneD [2/10, 2/10, 2/10]⟩]

/-- Witness for C7: replacing `cscd ↦ 0.1` by `cscd ↦ 0.2` in the
end-to-end entry leaves the track transforms equal. -/
theorem pid_group_channel_transform_sharing_witness :
    entryTransforms [1, 10, 100] sampleBinning ["numu_cc"] sampleGroup
      sampleEntry = .ok sharingWitnessL1 ∧
    entryTransforms [1, 10, 100] sampleBinning ["numu_cc"] sampleGroup
      (updateCscd (fun _ => 2/10) sampleEntry) = .ok sharingWitnessL2 ∧
    sharingWitnessL1.filter isTrckOutput = sharingWitnessL2.filter isTrckOutput :=
  ⟨rfl, rfl,
    (pid_group_channel_transform_sharing [1, 10, 100] sampleBinning
      ["numu_cc"] sampleGroup "trck" (.oneD []) sampleEntry).2
      (fun _ => 2/10) sharingWitnessL1 sharingWitnessL2 rfl rfl⟩

/-- Whether an `Except` computation succeeded (no exception raised). -/
def exceptIsOk {ε α : Type} : Except ε α → Bool
  | .ok _ => true
  | .error _ => false

/-- How many of one channel's transforms target a given input name: its
multiplicity among the input names when the group contains it, else none. -/
theorem channelTransforms_count (b : MultiDimBinning) (names : List String)
    (g : FlavIntGroup) (sig : String) (arr : PidArray) (x : String) :
    ((channelTransforms b names g sig arr).filter
        (fun t => t.input_name == x)).length =
      if x ∈ g.members then names.count x else 0 := by
  induction names with
  | nil => simp [channelTransforms]
  | cons nm rest ih =>
    simp only [channelTransforms, List.filterMap_cons] at ih ⊢
    by_cases hmem : nm ∈ g.members
    · rw [if_pos hmem]
      by_cases hx : nm = x
      · subst hx
        have hxm : nm ∈ g.members := hmem
        rw [List.filter_cons]
        simp only [BinnedTensorTransform.mk.injEq]
        rw [if_pos (by simp)]
        simp only [List.length_cons]
        rw [ih, List.count_cons]
        simp [hxm]
      · rw [List.filter_cons]
        rw [if_neg (by simp [hx])]
        rw [ih, List.count_cons]
        simp [hx]
    · rw [if_neg hmem]
      rw [ih]
      by_cases hxg : x ∈ g.members
      · rw [if_pos hxg, if_pos hxg, List.count_cons]
        have : ¬nm = x := fun hh => hmem (hh ▸ hxg)
        simp [this]
      · rw [if_neg hxg, if_neg hxg]

/-- A successful group assembly emits two transforms (one per channel) per
occurrence of a contained input name. -/
theorem entryTransforms_ok_count (ecen : List ℚ) (b : MultiDimBinning)
    (names : List String) (g : FlavIntGroup) (ep : EnergyParamEntry)
    (x : String) (l : List BinnedTensorTransform)
    (h : entryTransforms ecen b names g ep = .ok l) :
    (l.filter (fun t => t.input_name == x)).length =
      2 * (if x ∈ g.members then names.count x else 0) := by
  unfold entryTransforms at h
  by_cases hkeys : output_channels = dictKeys ep
  · obtain ⟨ftr, hftr⟩ := lookupKey_isSome_of_mem ep "trck"
      (by rw [← hkeys]; simp [output_channels])
    obtain ⟨fcs, hfcs⟩ := lookupKey_isSome_of_mem ep "cscd"
      (by rw [← hkeys]; simp [output_channels])
    rw [if_neg (fun hcon => hcon hkeys)] at h
    simp only [output_channels, exceptMapM, sigTransforms, hftr, hfcs] at h
    injection h with h
    subst h
    simp only [List.flatten, List.append_nil, List.filter_append,
      List.length_append]
    rw [channelTransforms_count, channelTransforms_count]
    split_ifs <;> omega
  · rw [if_pos hkeys] at h
    simp at h

/-- The per-group count, through the parameterisation lookup. -/
theorem groupTransforms_ok_count (ecen : List ℚ) (b : MultiDimBinning)
    (names : List String) (d : EnergyParamDict) (g : FlavIntGroup)
    (x : String) (l : List BinnedTensorTransform)
    (h : groupTransforms ecen b names d g = .ok l) :
    (l.filter (fun t => t.input_name == x)).length =
      2 * (if x ∈ g.members then names.count x else 0) := by
  unfold groupTransforms at h
  cases hf : find_energy_param d g.name with
  | error e => rw [hf] at h; simp at h
  | ok ep =>
    rw [hf] at h
    exact entryTransforms_ok_count ecen b names g ep x l h

/-- Summing the per-group counts over the whole group loop. -/
theorem exceptMapM_groups_count (ecen : List ℚ) (b : MultiDimBinning)
    (names : List String) (d : EnergyParamDict) (x : String) :
    ∀ (groups : List FlavIntGroup) (ls : List (List BinnedTensorTransform)),
      exceptMapM (groupTransforms ecen b names d) groups = .ok ls →
      (ls.flatten.filter (fun t => t.input_name == x)).length =
        2 * (groups.filter (fun g => decide (x ∈ g.members))).length *
          names.count x := by
  intro groups
  induction groups with
  | nil =>
    intro ls h
    unfold exceptMapM at h
    obtain rfl : ([] : List (List BinnedTensorTransform)) = ls := by
      simpa using h
    simp
  | cons g gs ih =>
    intro ls h
    unfold exceptMapM at h
    cases hg : groupTransforms ecen b names d g with
    | error e => rw [hg] at h; simp at h
    | ok lg =>
      rw [hg] at h
      cases hrest : exceptMapM (groupTransforms ecen b names d) gs with
      | error e => rw [hrest] at h; simp at h
      | ok lrest =>
        rw [hrest] at h
        injection h with h
        subst h
        rw [List.flatten_cons, List.filter_append, List.length_append]
        rw [groupTransforms_ok_count ecen b names d g x lg hg]
        rw [ih lrest hrest]
        rw [List.filter_cons]
        by_cases hx : x ∈ g.members
        · rw [if_pos hx, if_pos (by simp [hx])]
          simp only [List.length_cons]
          ring
        · rw [if_neg hx, if_neg (by simp [hx])]
          ring

/-- Whether a group's assembly raises never depends on the input names. -/
theorem entryTransforms_isOk_names (ecen : List ℚ) (b : MultiDimBinning)
    (g : FlavIntGroup) (ep : EnergyParamEntry) (names names' : List String) :
    exceptIsOk (entryTransforms ecen b names g ep) =
      exceptIsOk (entryTransforms ecen b names' g ep) := by
  unfold entryTransforms
  by_cases hkeys : output_channels = dictKeys ep
  · obtain ⟨ftr, hftr⟩ := lookupKey_isSome_of_mem ep "trck"
      (by rw [← hkeys]; simp [output_channels])
    obtain ⟨fcs, hfcs⟩ := lookupKey_isSome_of_mem ep "cscd"
      (by rw [← hkeys]; simp [output_channels])
    rw [if_neg (fun hcon => hcon hkeys), if_neg (fun hcon => hcon hkeys)]
    simp [output_channels, exceptMapM, sigTransforms, hftr, hfcs, exceptIsOk]
  · rw [if_pos hkeys, if_pos hkeys]

/-- Success of one group iteration is independent of the input names. -/
theorem groupTransforms_isOk_names (ecen : List ℚ) (b : MultiDimBinning)
    (d : EnergyParamDict) (g : FlavIntGroup) (names names' : List String) :
    exceptIsOk (groupTransforms ecen b names d g) =
      exceptIsOk (groupTransforms ecen b names' d g) := by
  unfold groupTransforms
  cases hf : find_energy_param d g.name with
  | error e => rfl
  | ok ep => exact entryTransforms_isOk_names ecen b g ep names names'

/-- A loop over pointwise equisuccessful bodies is equisuccessful. -/
theorem exceptMapM_isOk_congr {α β ε : Type} (f f' : α → Except ε β)
    (h : ∀ a, exceptIsOk (f a) = exceptIsOk (f' a)) (l : List α) :
    exceptIsOk (exceptMapM f l) = exceptIsOk (exceptMapM f' l) := by
  induction l with
  | nil => rfl
  | cons a as ih =>
    unfold exceptMapM
    cases hfa : f a with
    | error e =>
      cases hfa' : f' a with
      | error e' => rfl
      | ok b =>
        have hcon := h a
        rw [hfa, hfa'] at hcon
        simp [exceptIsOk] at hcon
    | ok b =>
      cases hfa' : f' a with
      | error e' =>
        have hcon := h a
        rw [hfa, hfa'] at hcon
        simp [exceptIsOk] at hcon
      | ok b' =>
        cases hm : exceptMapM f as with
        | error e =>
          cases hm' : exceptMapM f' as with
          | error e' => rfl
          | ok bs =>
            have hcon := ih
            rw [hm, hm'] at hcon
            simp [exceptIsOk] at hcon
        | ok bs =>
          cases hm' : exceptMapM f' as with
          | error e =>
            have hcon := ih
            rw [hm, hm'] at hcon
            simp [exceptIsOk] at hcon
          | ok bs' => rfl

/-- `_compute_nominal_transforms` once the energy dimension resolves. -/
theorem computeNominalTransforms_some (b : MultiDimBinning)
    (transform_groups : List FlavIntGroup) (names : List String)
    (d : EnergyParamDict) (edim : OneDimBinning)
    (hed : lookupDim b "reco_energy" = some edim) :
    computeNominalTransforms b transform_groups names d =
      match exceptMapM (groupTransforms edim.weighted_centers b names d)
          transform_groups with
      | .error e => .error e
      | .ok ls => .ok ls.flatten := by
  unfold computeNominalTransforms
  rw [hed]

/-- Success of `_compute_nominal_transforms` is independent of the input
names. -/
theorem computeNominalTransforms_isOk_names (b : MultiDimBinning)
    (transform_groups : List FlavIntGroup) (d : EnergyParamDict)
    (names names' : List String) :
    exceptIsOk (computeNominalTransforms b transform_groups names d) =
      exceptIsOk (computeNominalTransforms b transform_groups names' d) := by
  cases hed : lookupDim b "reco_energy" with
  | none => unfold computeNominalTransforms; rw [hed]
  | some edim =>
    rw [computeNominalTransforms_some b transform_groups names d edim hed,
      computeNominalTransforms_some b transform_groups names' d edim hed]
    have hcongr := exceptMapM_isOk_congr
      (groupTransforms edim.weighted_centers b names d)
      (groupTransforms edim.weighted_centers b names' d)
      (fun g => groupTransforms_isOk_names edim.weighted_centers b d g
        names names') transform_groups
    cases hm1 : exceptMapM (groupTransforms edim.weighted_centers b names d)
        transform_groups with
    | error e =>
      rw [hm1] at hcongr
      cases hm2 : exceptMapM
          (groupTransforms edim.weighted_centers b names' d)
          transform_groups with
      | error e' => rfl
      | ok ls =>
        rw [hm2] at hcongr
        simp [exceptIsOk] at hcongr
    | ok ls =>
      rw [hm1] at hcongr
      cases hm2 : exceptMapM
          (groupTransforms edim.weighted_centers b names' d)
          transform_groups with
      | error e' =>
        rw [hm2] at hcongr
        simp [exceptIsOk] at hcongr
      | ok ls' => rfl

/-- Claim C10: an input name is transformed once per containing group and
channel — its transform count in the returned set is `2 × (number of groups
containing it) × (its multiplicity among the input names)`, so a name in no
group is silently skipped with no transform at all — and whether
`_compute_nominal_transforms` succeeds never depends on the input names (the
partition of inputs into groups is never checked). -/
theorem pid_ungrouped_inputs_skipped (b : MultiDimBinning)
    (transform_groups : List FlavIntGroup) (input_names : List String)
    (d : EnergyParamDict) (x : String) (ts : List BinnedTensorTransform)
    (h : computeNominalTransforms b transform_groups input_names d = .ok ts) :
    (ts.filter (fun t => t.input_name == x)).length =
      2 * (transform_groups.filter (fun g => decide (x ∈ g.members))).length *
        input_names.count x ∧
    ∀ names',
      exceptIsOk (computeNominalTransforms b transform_groups names' d) =
        exceptIsOk (computeNominalTransforms b transform_groups input_names d) := by
  constructor
  · unfold computeNominalTransforms at h
    split at h
    · simp at h
    · next edim heq =>
        split at h
        · simp at h
        · next ls hm =>
            injection h with h
            subst h
            exact exceptMapM_groups_count edim.weighted_centers b
              input_names d x transform_groups ls hm
  · intro names'
    exact computeNominalTransforms_isOk_names b transform_groups d
      names' input_names

/-- Witness for C10: with inputs `numu_cc` and `nutau_cc` but only the
`numu_cc` group configured, `nutau_cc` gets zero transforms and no error. -/
theorem pid_ungrouped_inputs_skipped_witness :
    (sharingWitnessL1.filter (fun t => t.input_name == "nutau_cc")).length =
      2 * ([sampleGroup].filter
          (fun g => decide ("nutau_cc" ∈ g.members))).length *
        (["numu_cc", "nutau_cc"].count "nutau_cc") ∧
    ∀ names',
      exceptIsOk (computeNominalTransforms sampleBinning [sampleGroup]
          names' sampleDict) =
        exceptIsOk (computeNominalTransforms sampleBinning [sampleGroup]
          ["numu_cc", "nutau_cc"] sampleDict) :=
  pid_ungrouped_inputs_skipped sampleBinning [sampleGroup]
    ["numu_cc", "nutau_cc"] sampleDict "nutau_cc" sharingWitnessL1 rfl
